import Mathlib

/-!
Verification of the `decouple` dispatcher (src/decoupler/decouple.py).

The dispatcher is embedded shallowly: Python dicts become association lists
with Python's update semantics (updating an existing key keeps its position,
a new key is appended at the end), the five scoring callables and the
consensus aggregator are opaque parameters collected in an environment
record, and exceptions become an explicit error value that aborts the run.
Mutation of the caller-supplied `args` mapping and of the AnnData `obsm`
slot is modelled by returning the final state of both objects.
-/

namespace Decoupler

/-- Values stored in a Python keyword-argument dict. The dispatcher only ever
writes integers (for min_n) and booleans (for verbose); strings cover other
caller-supplied overrides. -/
inductive Val where
  | int (n : Int)
  | bool (b : Bool)
  | str (s : String)
  deriving DecidableEq, Repr

/-- Python dict lookup (`d[k]` / `k in d`) on an association list. -/
def dictLookup {α : Type} : List (String × α) → String → Option α
  | [], _ => none
  | (k, v) :: d, key => if key = k then some v else dictLookup d key

/-- Python dict assignment `d[k] = v`: an existing key keeps its position and
gets the new value, a fresh key is appended at the end. -/
def dictSet {α : Type} : List (String × α) → String → α → List (String × α)
  | [], key, val => [(key, val)]
  | (k, v) :: d, key, val =>
      if key = k then (k, val) :: d else (k, v) :: dictSet d key val

/-- The keys of a dict, in insertion order. -/
def dictKeys {α : Type} (d : List (String × α)) : List String :=
  d.map Prod.fst

/-- A pandas DataFrame as the dispatcher sees it: row labels, column labels
and a numeric payload (numbers are opaque to the dispatcher, so Int). -/
structure DataFrame where
  index : List String
  columns : List String
  data : List (List Int)
  deriving DecidableEq, Repr

/-- A named result table: a DataFrame carrying a .name string, as returned by
each scoring method. -/
structure Table where
  name : String
  df : DataFrame
  deriving DecidableEq, Repr

/-- An AnnData object: numeric payload X, row labels (obs), column labels
(var), and the mutable named-results attachment slot obsm. -/
structure AnnData where
  X : List (List Int)
  obs_index : List String
  var_index : List String
  obsm : List (String × Table)
  deriving DecidableEq, Repr

/-- Network in long format. The dispatcher never inspects it; it is passed
through to the scoring methods unchanged. -/
structure Net where
  rows : List (String × String × Int)
  deriving DecidableEq, Repr

/-- The three accepted shapes of `mat`: a [genes, matrix] list, a DataFrame,
or an AnnData instance. -/
inductive Mat where
  | listForm (genes : List String) (x : List (List Int))
  | dfForm (df : DataFrame)
  | annForm (a : AnnData)
  deriving DecidableEq, Repr

/-- Exceptions: the ValueError the dispatcher itself raises for an unknown
method name, and opaque failures raised by the external collaborators. -/
inductive Err where
  | valueError (msg : String)
  | methodErr (tag : String)
  deriving DecidableEq, Repr

/-- A keyword-argument dict. -/
abbrev Kwargs := List (String × Val)

/-- The caller-supplied `args`: a dict of per-method keyword-override dicts. -/
abbrev ArgsDict := List (String × Kwargs)

/-- The accumulated result-set mapping `results`. -/
abbrev ResultsDict := List (String × Table)

/-- The calling convention of a scoring method: f(mat=tmp, net=net,
source=source, target=target, weight=weight, **a), returning a sequence of
named tables or raising. -/
abbrev ScoreFn := Mat → Net → String → String → String → Kwargs → Except Err (List Table)

/-- The external collaborators: the five scoring callables imported at module
level, plus run_consensus. -/
structure Env where
  run_wmean : ScoreFn
  run_wsum : ScoreFn
  run_ulm : ScoreFn
  run_mlm : ScoreFn
  run_ora : ScoreFn
  run_consensus : ResultsDict → Except Err (List Table)

/-- The registry built at the top of `decouple`:
methods_dict = \x7b'wmean': run_wmean, ..., 'ora': run_ora\x7d. -/
def methods_dict (env : Env) : List (String × ScoreFn) :=
  [("wmean", env.run_wmean), ("wsum", env.run_wsum), ("ulm", env.run_ulm),
   ("mlm", env.run_mlm), ("ora", env.run_ora)]

/-- tmp = mat, except that an AnnData instance is materialized as
pd.DataFrame(mat.X, index=mat.obs.index, columns=mat.var.index). -/
def toTmp : Mat → Mat
  | .annForm a => .dfForm ⟨a.obs_index, a.var_index, a.X⟩
  | m => m

/-- The two forced assignments a['min_n'] = min_n; a['verbose'] = verbose. -/
def force (a : Kwargs) (min_n : Int) (verbose : Bool) : Kwargs :=
  dictSet (dictSet a "min_n" (.int min_n)) "verbose" (.bool verbose)

/-- The kwargs dict actually passed to a method: the caller's args[methd]
(or a fresh empty dict when absent), with min_n and verbose forced. -/
def methodKwargs (args : ArgsDict) (methd : String) (min_n : Int) (verbose : Bool) : Kwargs :=
  force ((dictLookup args methd).getD []) min_n verbose

/-- The caller's `args` after one iteration: when args[methd] exists the two
forced assignments mutate it in place; when it is absent the fresh dict is
never inserted and `args` is untouched. -/
def argsAfter (args : ArgsDict) (methd : String) (min_n : Int) (verbose : Bool) : ArgsDict :=
  match dictLookup args methd with
  | none => args
  | some _ => dictSet args methd (methodKwargs args methd min_n verbose)

/-- The ValueError message for an unknown method name. -/
def unknownMsg (methd : String) : String :=
  "Method " ++ methd ++ " not available, please run show_methods() to see the list of available methods."

/-- State threaded through the dispatch loop. `err`, `results` and `args`
are the program state (`args` is the caller's mutated mapping); `calls`
and `produced` are ghost instrumentation recording, in order, every
invocation (method name, kwargs passed) and every table produced. -/
structure RunSt where
  err : Option Err
  results : ResultsDict
  args : ArgsDict
  calls : List (String × Kwargs)
  produced : List Table
  deriving DecidableEq, Repr

/-- Insert a sequence of returned tables into the result-set mapping:
for r in res: results[r.name] = r. -/
def storeTables (rs : ResultsDict) (res : List Table) : ResultsDict :=
  res.foldl (fun rs r => dictSet rs r.name r) rs

/-- The dispatch loop `for methd in methods` of `decouple`: look the name up
in methods_dict (raise ValueError when absent), build the kwargs with min_n
and verbose forced, invoke the scoring function, store its tables. A raise
stops the loop with `err` set; the mutation of `args` performed before the
failing invocation is kept. -/
def runMethods (env : Env) (tmp : Mat) (net : Net) (source target weight : String)
    (min_n : Int) (verbose : Bool) : List String → RunSt → RunSt
  | [], st => st
  | methd :: rest, st =>
      match dictLookup (methods_dict env) methd with
      | none => { st with err := some (.valueError (unknownMsg methd)) }
      | some f =>
          let a := methodKwargs st.args methd min_n verbose
          match f tmp net source target weight a with
          | .error e =>
              { st with err := some e,
                        args := argsAfter st.args methd min_n verbose,
                        calls := st.calls ++ [(methd, a)] }
          | .ok res =>
              runMethods env tmp net source target weight min_n verbose rest
                { st with results := storeTables st.results res,
                          args := argsAfter st.args methd min_n verbose,
                          calls := st.calls ++ [(methd, a)],
                          produced := st.produced ++ res }

/-- The state the dispatch loop starts from: results = \x7b\x7d, the
caller-supplied args, no error, empty traces. -/
def initSt (args : ArgsDict) : RunSt :=
  { err := none, results := [], args := args, calls := [], produced := [] }

/-- The consensus step: when no method raised and `consensus` is set, run
run_consensus(results) and store its tables by the same rule; a raise from
the loop propagates past it untouched. -/
def consensusStep (env : Env) (consensus : Bool) (st : RunSt) : RunSt :=
  match st.err with
  | some _ => st
  | none =>
      if consensus then
        match env.run_consensus st.results with
        | .error e => { st with err := some e }
        | .ok res => { st with results := storeTables st.results res,
                               produced := st.produced ++ res }
      else st

/-- The run of `decouple` up to (and including) the consensus step: the
method loop from an empty result set over the normalized matrix, then the
consensus step. -/
def decoupleRun (env : Env) (mat : Mat) (net : Net) (source target weight : String)
    (methods : List String) (args : ArgsDict) (consensus : Bool)
    (min_n : Int) (verbose : Bool) : RunSt :=
  consensusStep env consensus
    (runMethods env (toTmp mat) net source target weight min_n verbose methods (initSt args))

/-- The write-back loop `for r in results: mat.obsm[r] = results[r]`: every
key of the result-set mapping is assigned into the obsm slot, in insertion
order, paired with its own table. -/
def writeBack (ob : List (String × Table)) (rs : ResultsDict) : List (String × Table) :=
  rs.foldl (fun ob r => dictSet ob r.1 r.2) ob

/-- The final step of `decouple`: a raise propagates to the caller (no
return value, `mat` untouched); otherwise an AnnData input gets every entry
of the result-set mapping written into its obsm slot and the function
returns None, while any other input form gets the result-set mapping
returned. -/
def finishStep (mat : Mat) (st : RunSt) :
    Except Err (Option ResultsDict) × ArgsDict × Mat :=
  match st.err with
  | some e => (.error e, st.args, mat)
  | none =>
      match mat with
      | .annForm a =>
          (.ok none, st.args, .annForm { a with obsm := writeBack a.obsm st.results })
      | _ => (.ok (some st.results), st.args, mat)

/-- The full `decouple` call. The first component is the outcome: an error
when some step raised, `.ok none` for an AnnData input (results are written
into obsm and nothing is returned), `.ok (some results)` otherwise. The
second and third components are the final states of the two caller-owned
objects `args` and `mat`. -/
def decouple (env : Env) (mat : Mat) (net : Net) (source target weight : String)
    (methods : List String) (args : ArgsDict) (consensus : Bool)
    (min_n : Int) (verbose : Bool) :
    Except Err (Option ResultsDict) × ArgsDict × Mat :=
  finishStep mat
    (decoupleRun env mat net source target weight methods args consensus min_n verbose)

/-- The last table of a list carrying a given name, if any: the one a
Python dict keeps after inserting the tables in order. -/
def lastTable : List Table → String → Option Table
  | [], _ => none
  | t :: ts, k =>
      match lastTable ts k with
      | some u => some u
      | none => if t.name = k then some t else none

/-- Whether an error value is the dispatcher's own ValueError. -/
def isValueErr : Err → Bool
  | .valueError _ => true
  | .methodErr _ => false

/-- Every recorded invocation was passed min_n and verbose equal to the
dispatcher's own parameters. -/
def callsForced (min_n : Int) (verbose : Bool) (cs : List (String × Kwargs)) : Prop :=
  ∀ p ∈ cs, dictLookup p.2 "min_n" = some (.int min_n) ∧
    dictLookup p.2 "verbose" = some (.bool verbose)

/-- The entry of an args mapping at a key, when present, is a fixed point
of the forced overwrite. -/
def entryStable (min_n : Int) (verbose : Bool) (A : ArgsDict) (m : String) : Prop :=
  ∀ a, dictLookup A m = some a → force a min_n verbose = a

/-- Every entry at a selected method name is a fixed point of the forced
overwrite. -/
def stableOn (min_n : Int) (verbose : Bool) (ms : List String) (A : ArgsDict) : Prop :=
  ∀ m ∈ ms, entryStable min_n verbose A m

/-- Two args mappings that the loop cannot tell apart: presence of every
key agrees, and the forced override built from any entry agrees. -/
def kwEquiv (min_n : Int) (verbose : Bool) (A B : ArgsDict) : Prop :=
  ∀ m, (dictLookup A m).isSome = (dictLookup B m).isSome ∧
    force ((dictLookup A m).getD []) min_n verbose =
      force ((dictLookup B m).getD []) min_n verbose

/-- Whether a Mat value is the AnnData form. -/
def isAnn : Mat → Bool
  | .annForm _ => true
  | _ => false

/-! ### Concrete data for evaluating the development on closed inputs -/

/-- A small concrete DataFrame. -/
def dfT : DataFrame := ⟨["s1", "s2"], ["g1", "g2"], [[1, 2], [3, 4]]⟩

/-- A named table over the concrete DataFrame. -/
def tblOf (nm : String) : Table := ⟨nm, dfT⟩

/-- A small concrete network. -/
def netT : Net := ⟨[("src1", "t1", 1), ("src1", "t2", 1)]⟩

/-- A concrete environment whose scoring methods succeed with fixed,
distinctly named tables. -/
def envT : Env :=
  ⟨fun _ _ _ _ _ _ => .ok [tblOf "wmean_estimate", tblOf "wmean_pvals"],
   fun _ _ _ _ _ _ => .ok [tblOf "wsum_estimate"],
   fun _ _ _ _ _ _ => .ok [tblOf "ulm_estimate"],
   fun _ _ _ _ _ _ => .ok [tblOf "mlm_estimate"],
   fun _ _ _ _ _ _ => .ok [tblOf "ora_estimate"],
   fun _ => .ok [tblOf "consensus_estimate"]⟩

/-- Like envT, except that the wmean scoring method raises. -/
def envBad : Env :=
  ⟨fun _ _ _ _ _ _ => .error (.methodErr "boom"),
   fun _ _ _ _ _ _ => .ok [tblOf "wsum_estimate"],
   fun _ _ _ _ _ _ => .ok [tblOf "ulm_estimate"],
   fun _ _ _ _ _ _ => .ok [tblOf "mlm_estimate"],
   fun _ _ _ _ _ _ => .ok [tblOf "ora_estimate"],
   fun _ => .ok [tblOf "consensus_estimate"]⟩

/-- A concrete DataFrame-shaped mat. -/
def matT : Mat := .dfForm dfT

/-- A concrete AnnData instance with an empty obsm slot. -/
def annT : AnnData := ⟨[[1, 2], [3, 4]], ["s1", "s2"], ["g1", "g2"], []⟩

/-- The AnnData-shaped mat built from annT. -/
def matAnnT : Mat := .annForm annT

/-- Caller-supplied args carrying an override dict for ulm, including a
min_n value the dispatcher must overwrite. -/
def argsT : ArgsDict := [("ulm", [("min_n", .int 99), ("extra", .str "x")])]

/-- The ulm override dict after the dispatcher's forced overwrite. -/
def ulmForced : Kwargs := [("min_n", .int 5), ("extra", .str "x"), ("verbose", .bool true)]

/-- First component returned by decouple on the concrete ulm-only call. -/
def r1c : Except Err (Option ResultsDict) := .ok (some [("ulm_estimate", tblOf "ulm_estimate")])

/-- Final args state of the concrete ulm-only call. -/
def a1c : ArgsDict := [("ulm", ulmForced)]

/-! ### Association-list lemmas for the Python dict model -/

theorem dictLookup_dictSet_self {α : Type} (d : List (String × α)) (k : String) (v : α) :
    dictLookup (dictSet d k v) k = some v := by
  induction d with
  | nil => simp [dictSet, dictLookup]
  | cons hd tl ih =>
      obtain ⟨k0, v0⟩ := hd
      by_cases h : k = k0
      · simp [dictSet, dictLookup, h]
      · simp [dictSet, dictLookup, h, ih]

theorem dictLookup_dictSet_ne {α : Type} (d : List (String × α)) {k k' : String} (v : α)
    (h : k' ≠ k) : dictLookup (dictSet d k v) k' = dictLookup d k' := by
  induction d with
  | nil => simp [dictSet, dictLookup, h]
  | cons hd tl ih =>
      obtain ⟨k0, v0⟩ := hd
      by_cases h0 : k = k0
      · subst h0
        simp [dictSet, dictLookup, h]
      · by_cases h1 : k' = k0
        · simp [dictSet, dictLookup, h0, h1]
        · simp [dictSet, dictLookup, h0, h1, ih]

theorem dictSet_lookup_eq_self {α : Type} {d : List (String × α)} {k : String} {v : α}
    (h : dictLookup d k = some v) : dictSet d k v = d := by
  induction d with
  | nil => simp [dictLookup] at h
  | cons hd tl ih =>
      obtain ⟨k0, v0⟩ := hd
      by_cases h0 : k = k0
      · subst h0
        simp [dictLookup] at h
        simp [dictSet, h]
      · simp [dictLookup, h0] at h
        simp [dictSet, h0, ih h]

theorem mem_dictKeys_dictSet {α : Type} (d : List (String × α)) (k m : String) (v : α) :
    m ∈ dictKeys (dictSet d k v) ↔ m = k ∨ m ∈ dictKeys d := by
  induction d with
  | nil => simp [dictSet, dictKeys]
  | cons hd tl ih =>
      obtain ⟨k0, v0⟩ := hd
      by_cases h0 : k = k0
      · subst h0
        have hset : dictSet ((k, v0) :: tl) k v = (k, v) :: tl := by
          simp [dictSet]
        rw [hset]
        simp only [dictKeys, List.map_cons, List.mem_cons]
        tauto
      · simp only [dictSet, if_neg h0]
        simp only [dictKeys, List.map_cons, List.mem_cons] at ih ⊢
        rw [ih]
        tauto

theorem dictKeys_dictSet_of_lookup {α : Type} {d : List (String × α)} {k : String} {w : α}
    (h : dictLookup d k = some w) (v : α) : dictKeys (dictSet d k v) = dictKeys d := by
  induction d with
  | nil => simp [dictLookup] at h
  | cons hd tl ih =>
      obtain ⟨k0, v0⟩ := hd
      by_cases h0 : k = k0
      · subst h0
        simp [dictSet, dictKeys]
      · simp [dictLookup, h0] at h
        simp [dictSet, dictKeys, h0] at ih ⊢
        exact ih h

theorem dictLookup_none_iff_not_mem {α : Type} (d : List (String × α)) (k : String) :
    dictLookup d k = none ↔ k ∉ dictKeys d := by
  induction d with
  | nil => simp [dictLookup, dictKeys]
  | cons hd tl ih =>
      obtain ⟨k0, v0⟩ := hd
      by_cases h0 : k = k0
      · simp [dictLookup, dictKeys, h0]
      · simp [dictLookup, dictKeys, h0, ih]

theorem dictLookup_isSome_iff_mem {α : Type} (d : List (String × α)) (k : String) :
    (dictLookup d k).isSome ↔ k ∈ dictKeys d := by
  induction d with
  | nil => simp [dictLookup, dictKeys]
  | cons hd tl ih =>
      obtain ⟨k0, v0⟩ := hd
      by_cases h0 : k = k0 <;> simp [dictLookup, dictKeys, h0, ih]

theorem nodup_dictKeys_dictSet {α : Type} {d : List (String × α)} (k : String) (v : α)
    (h : (dictKeys d).Nodup) : (dictKeys (dictSet d k v)).Nodup := by
  induction d with
  | nil => simp [dictSet, dictKeys]
  | cons hd tl ih =>
      obtain ⟨k0, v0⟩ := hd
      simp only [dictKeys, List.map_cons, List.nodup_cons] at h
      by_cases h0 : k = k0
      · subst h0
        simpa [dictSet, dictKeys] using h
      · have h2 := ih h.2
        have h1 : k0 ∉ dictKeys (dictSet tl k v) := by
          intro hmem
          rcases (mem_dictKeys_dictSet tl k k0 v).mp hmem with h1 | h1
          · exact h0 h1.symm
          · exact h.1 h1
        simp only [dictSet, if_neg h0, dictKeys, List.map_cons, List.nodup_cons]
        exact ⟨h1, h2⟩

theorem dictLookup_mem_of_nodup {α : Type} {d : List (String × α)} {k : String} {v : α}
    (hnd : (dictKeys d).Nodup) (h : (k, v) ∈ d) : dictLookup d k = some v := by
  induction d with
  | nil => simp at h
  | cons hd tl ih =>
      obtain ⟨k0, v0⟩ := hd
      simp only [dictKeys, List.map_cons, List.nodup_cons] at hnd
      rcases List.mem_cons.mp h with h1 | h1
      · injection h1 with hk hv
        subst hk; subst hv
        simp [dictLookup]
      · by_cases h0 : k = k0
        · exfalso
          apply hnd.1
          subst h0
          exact List.mem_map.mpr ⟨(k, v), h1, rfl⟩
        · simp only [dictLookup, if_neg h0]
          exact ih hnd.2 h1

/-! ### Result-set fold lemmas -/

theorem storeTables_nil (rs : ResultsDict) : storeTables rs [] = rs := rfl

theorem storeTables_cons (rs : ResultsDict) (t : Table) (ts : List Table) :
    storeTables rs (t :: ts) = storeTables (dictSet rs t.name t) ts := rfl

theorem storeTables_append (rs : ResultsDict) (xs ys : List Table) :
    storeTables rs (xs ++ ys) = storeTables (storeTables rs xs) ys := by
  simp [storeTables, List.foldl_append]

theorem dictLookup_storeTables (rs : ResultsDict) (ts : List Table) (k : String) :
    dictLookup (storeTables rs ts) k =
      match lastTable ts k with
      | some t => some t
      | none => dictLookup rs k := by
  induction ts generalizing rs with
  | nil => simp [storeTables, lastTable]
  | cons t ts ih =>
      rw [storeTables_cons, ih]
      cases h : lastTable ts k with
      | some u => simp [lastTable, h]
      | none =>
          simp only [lastTable, h]
          by_cases ht : t.name = k
          · subst ht
            simp [dictLookup_dictSet_self]
          · have hne : k ≠ t.name := fun hh => ht hh.symm
            simp [ht, dictLookup_dictSet_ne rs t hne]

theorem lastTable_isSome_iff (ts : List Table) (k : String) :
    (lastTable ts k).isSome ↔ k ∈ ts.map Table.name := by
  induction ts with
  | nil => simp [lastTable]
  | cons t ts ih =>
      simp only [lastTable, List.map_cons, List.mem_cons]
      cases h : lastTable ts k with
      | some u =>
          simp only [h, Option.isSome_some, true_iff] at ih ⊢
          exact Or.inr ih
      | none =>
          simp only [h, Option.isSome_none, false_iff] at ih
          by_cases ht : t.name = k
          · simp [ht, eq_comm]
          · have : ¬(k = t.name) := fun hh => ht hh.symm
            simp [ht, this, ih]

theorem nodup_dictKeys_storeTables {rs : ResultsDict} (hnd : (dictKeys rs).Nodup)
    (ts : List Table) : (dictKeys (storeTables rs ts)).Nodup := by
  induction ts generalizing rs with
  | nil => exact hnd
  | cons t ts ih =>
      rw [storeTables_cons]
      exact ih (nodup_dictKeys_dictSet t.name t hnd)

/-! ### Write-back lemmas -/

theorem writeBack_nil (ob : List (String × Table)) : writeBack ob [] = ob := rfl

theorem writeBack_cons (ob : List (String × Table)) (p : String × Table) (rs : ResultsDict) :
    writeBack ob (p :: rs) = writeBack (dictSet ob p.1 p.2) rs := rfl

theorem dictLookup_writeBack_not_mem (ob : List (String × Table)) (rs : ResultsDict)
    (k : String) (h : k ∉ dictKeys rs) :
    dictLookup (writeBack ob rs) k = dictLookup ob k := by
  induction rs generalizing ob with
  | nil => rfl
  | cons p rs ih =>
      obtain ⟨k0, t0⟩ := p
      simp only [dictKeys, List.map_cons, List.mem_cons, not_or] at h
      rw [writeBack_cons, ih _ h.2]
      exact dictLookup_dictSet_ne ob t0 h.1

theorem dictLookup_writeBack_of_lookup (ob : List (String × Table)) {rs : ResultsDict}
    {k : String} {t : Table} (hnd : (dictKeys rs).Nodup) (h : dictLookup rs k = some t) :
    dictLookup (writeBack ob rs) k = some t := by
  induction rs generalizing ob with
  | nil => simp [dictLookup] at h
  | cons p rs ih =>
      obtain ⟨k0, t0⟩ := p
      simp only [dictKeys, List.map_cons, List.nodup_cons] at hnd
      by_cases h0 : k = k0
      · subst h0
        simp only [dictLookup, if_true, eq_self_iff_true] at h
        rw [Option.some.injEq] at h
        subst h
        rw [writeBack_cons, dictLookup_writeBack_not_mem _ _ _ hnd.1]
        exact dictLookup_dictSet_self ob k _
      · simp only [dictLookup, if_neg h0] at h
        rw [writeBack_cons]
        exact ih _ hnd.2 h

theorem writeBack_writeBack {rs : ResultsDict} (hnd : (dictKeys rs).Nodup)
    (ob : List (String × Table)) : writeBack (writeBack ob rs) rs = writeBack ob rs := by
  induction rs generalizing ob with
  | nil => rfl
  | cons p rs ih =>
      obtain ⟨k0, t0⟩ := p
      simp only [dictKeys, List.map_cons, List.nodup_cons] at hnd
      rw [writeBack_cons, writeBack_cons]
      have hl : dictLookup (writeBack (dictSet ob k0 t0) rs) k0 = some t0 := by
        rw [dictLookup_writeBack_not_mem _ _ _ hnd.1]
        exact dictLookup_dictSet_self ob k0 t0
      rw [dictSet_lookup_eq_self hl]
      exact ih hnd.2 (dictSet ob k0 t0)

/-! ### Forced-override lemmas -/

theorem force_lookup_min (a : Kwargs) (mn : Int) (vb : Bool) :
    dictLookup (force a mn vb) "min_n" = some (.int mn) := by
  unfold force
  rw [dictLookup_dictSet_ne _ _ (by decide)]
  exact dictLookup_dictSet_self _ _ _

theorem force_lookup_verbose (a : Kwargs) (mn : Int) (vb : Bool) :
    dictLookup (force a mn vb) "verbose" = some (.bool vb) := by
  unfold force
  exact dictLookup_dictSet_self _ _ _

theorem force_force (a : Kwargs) (mn : Int) (vb : Bool) :
    force (force a mn vb) mn vb = force a mn vb := by
  show dictSet (dictSet (force a mn vb) "min_n" (.int mn)) "verbose" (.bool vb) = force a mn vb
  rw [dictSet_lookup_eq_self (force_lookup_min a mn vb),
      dictSet_lookup_eq_self (force_lookup_verbose a mn vb)]

theorem methodKwargs_lookup_min (args : ArgsDict) (m : String) (mn : Int) (vb : Bool) :
    dictLookup (methodKwargs args m mn vb) "min_n" = some (.int mn) :=
  force_lookup_min _ _ _

theorem methodKwargs_lookup_verbose (args : ArgsDict) (m : String) (mn : Int) (vb : Bool) :
    dictLookup (methodKwargs args m mn vb) "verbose" = some (.bool vb) :=
  force_lookup_verbose _ _ _

/-! ### argsAfter lemmas -/

theorem argsAfter_keys (args : ArgsDict) (m : String) (mn : Int) (vb : Bool) :
    dictKeys (argsAfter args m mn vb) = dictKeys args := by
  unfold argsAfter
  cases h : dictLookup args m with
  | none => rfl
  | some a0 => exact dictKeys_dictSet_of_lookup h _

theorem argsAfter_lookup_ne (args : ArgsDict) {m m' : String} (mn : Int) (vb : Bool)
    (h : m' ≠ m) : dictLookup (argsAfter args m mn vb) m' = dictLookup args m' := by
  unfold argsAfter
  cases hx : dictLookup args m with
  | none => rfl
  | some a0 => exact dictLookup_dictSet_ne args _ h

theorem argsAfter_of_none {args : ArgsDict} {m : String} (mn : Int) (vb : Bool)
    (h : dictLookup args m = none) : argsAfter args m mn vb = args := by
  unfold argsAfter
  rw [h]

theorem argsAfter_lookup_of_some {args : ArgsDict} {m : String} (mn : Int) (vb : Bool)
    {a0 : Kwargs} (h : dictLookup args m = some a0) :
    dictLookup (argsAfter args m mn vb) m = some (methodKwargs args m mn vb) := by
  unfold argsAfter
  rw [h]
  exact dictLookup_dictSet_self _ _ _

theorem methodKwargs_of_some {args : ArgsDict} {m : String} (mn : Int) (vb : Bool)
    {a0 : Kwargs} (h : dictLookup args m = some a0) :
    methodKwargs args m mn vb = force a0 mn vb := by
  unfold methodKwargs
  rw [h]
  rfl

theorem argsAfter_stable {args : ArgsDict} {m : String} {mn : Int} {vb : Bool} {a : Kwargs}
    (h : dictLookup args m = some a) (hfix : force a mn vb = a) :
    argsAfter args m mn vb = args := by
  unfold argsAfter
  rw [h, methodKwargs_of_some mn vb h, hfix]
  exact dictSet_lookup_eq_self h

/-! ### Dispatch-loop unfolding lemmas -/

section LoopLemmas

variable {env : Env} {tmp : Mat} {net : Net} {source target weight : String}
  {min_n : Int} {verbose : Bool}

theorem runMethods_nil (st : RunSt) :
    runMethods env tmp net source target weight min_n verbose [] st = st := rfl

theorem runMethods_cons_unknown {m : String} {ms : List String} {st : RunSt}
    (h : dictLookup (methods_dict env) m = none) :
    runMethods env tmp net source target weight min_n verbose (m :: ms) st =
      { st with err := some (.valueError (unknownMsg m)) } := by
  simp only [runMethods, h]

theorem runMethods_cons_err {m : String} {ms : List String} {st : RunSt} {f : ScoreFn}
    {e : Err} (hf : dictLookup (methods_dict env) m = some f)
    (hr : f tmp net source target weight (methodKwargs st.args m min_n verbose) = .error e) :
    runMethods env tmp net source target weight min_n verbose (m :: ms) st =
      { st with err := some e,
                args := argsAfter st.args m min_n verbose,
                calls := st.calls ++ [(m, methodKwargs st.args m min_n verbose)] } := by
  simp only [runMethods, hf, hr]

theorem runMethods_cons_ok {m : String} {ms : List String} {st : RunSt} {f : ScoreFn}
    {res : List Table} (hf : dictLookup (methods_dict env) m = some f)
    (hr : f tmp net source target weight (methodKwargs st.args m min_n verbose) = .ok res) :
    runMethods env tmp net source target weight min_n verbose (m :: ms) st =
      runMethods env tmp net source target weight min_n verbose ms
        { st with results := storeTables st.results res,
                  args := argsAfter st.args m min_n verbose,
                  calls := st.calls ++ [(m, methodKwargs st.args m min_n verbose)],
                  produced := st.produced ++ res } := by
  simp only [runMethods, hf, hr]

/-! ### Dispatch-loop invariants -/

theorem callsForced_nil : callsForced min_n verbose [] := by
  intro p hp
  simp at hp

theorem callsForced_append_call {cs : List (String × Kwargs)} {m : String} {a : Kwargs}
    (h : callsForced min_n verbose cs)
    (hmin : dictLookup a "min_n" = some (.int min_n))
    (hvb : dictLookup a "verbose" = some (.bool verbose)) :
    callsForced min_n verbose (cs ++ [(m, a)]) := by
  intro p hp
  rcases List.mem_append.mp hp with hp | hp
  · exact h p hp
  · simp at hp
    subst hp
    exact ⟨hmin, hvb⟩

theorem runMethods_calls_forced (ms : List String) (st : RunSt)
    (h : callsForced min_n verbose st.calls) :
    callsForced min_n verbose
      (runMethods env tmp net source target weight min_n verbose ms st).calls := by
  induction ms generalizing st with
  | nil => exact h
  | cons m ms ih =>
      cases hf : dictLookup (methods_dict env) m with
      | none =>
          rw [runMethods_cons_unknown hf]
          exact h
      | some f =>
          cases hr : f tmp net source target weight (methodKwargs st.args m min_n verbose) with
          | error e =>
              rw [runMethods_cons_err hf hr]
              exact callsForced_append_call h (methodKwargs_lookup_min _ _ _ _)
                (methodKwargs_lookup_verbose _ _ _ _)
          | ok res =>
              rw [runMethods_cons_ok hf hr]
              exact ih _ (callsForced_append_call h (methodKwargs_lookup_min _ _ _ _)
                (methodKwargs_lookup_verbose _ _ _ _))

theorem runMethods_args_keys (ms : List String) (st : RunSt) :
    dictKeys (runMethods env tmp net source target weight min_n verbose ms st).args =
      dictKeys st.args := by
  induction ms generalizing st with
  | nil => rfl
  | cons m ms ih =>
      cases hf : dictLookup (methods_dict env) m with
      | none =>
          rw [runMethods_cons_unknown hf]
      | some f =>
          cases hr : f tmp net source target weight (methodKwargs st.args m min_n verbose) with
          | error e =>
              rw [runMethods_cons_err hf hr]
              exact argsAfter_keys st.args m min_n verbose
          | ok res =>
              rw [runMethods_cons_ok hf hr, ih]
              exact argsAfter_keys st.args m min_n verbose

theorem runMethods_results_spec (ms : List String) (st : RunSt)
    (h : st.results = storeTables [] st.produced) :
    (runMethods env tmp net source target weight min_n verbose ms st).results =
      storeTables []
        (runMethods env tmp net source target weight min_n verbose ms st).produced := by
  induction ms generalizing st with
  | nil => exact h
  | cons m ms ih =>
      cases hf : dictLookup (methods_dict env) m with
      | none =>
          rw [runMethods_cons_unknown hf]
          exact h
      | some f =>
          cases hr : f tmp net source target weight (methodKwargs st.args m min_n verbose) with
          | error e =>
              rw [runMethods_cons_err hf hr]
              exact h
          | ok res =>
              rw [runMethods_cons_ok hf hr]
              apply ih
              simp only [h, storeTables_append]

theorem runMethods_calls_names (ms : List String) (st : RunSt)
    (h : (runMethods env tmp net source target weight min_n verbose ms st).err = none) :
    ((runMethods env tmp net source target weight min_n verbose ms st).calls).map Prod.fst =
      (st.calls).map Prod.fst ++ ms := by
  induction ms generalizing st with
  | nil => simp [runMethods_nil]
  | cons m ms ih =>
      cases hf : dictLookup (methods_dict env) m with
      | none =>
          rw [runMethods_cons_unknown hf] at h
          simp at h
      | some f =>
          cases hr : f tmp net source target weight (methodKwargs st.args m min_n verbose) with
          | error e =>
              rw [runMethods_cons_err hf hr] at h
              simp at h
          | ok res =>
              rw [runMethods_cons_ok hf hr] at h ⊢
              rw [ih _ h]
              simp

theorem runMethods_append (ms1 ms2 : List String) (st : RunSt)
    (h : (runMethods env tmp net source target weight min_n verbose ms1 st).err = none) :
    runMethods env tmp net source target weight min_n verbose (ms1 ++ ms2) st =
      runMethods env tmp net source target weight min_n verbose ms2
        (runMethods env tmp net source target weight min_n verbose ms1 st) := by
  induction ms1 generalizing st with
  | nil => rfl
  | cons m ms1 ih =>
      cases hf : dictLookup (methods_dict env) m with
      | none =>
          rw [runMethods_cons_unknown hf] at h
          simp at h
      | some f =>
          cases hr : f tmp net source target weight (methodKwargs st.args m min_n verbose) with
          | error e =>
              rw [runMethods_cons_err hf hr] at h
              simp at h
          | ok res =>
              rw [runMethods_cons_ok hf hr] at h ⊢
              rw [List.cons_append, runMethods_cons_ok hf hr, ih _ h]

/-! ### Entry-stability lemmas -/

theorem entryStable_argsAfter_self (A : ArgsDict) (m : String) :
    entryStable min_n verbose (argsAfter A m min_n verbose) m := by
  intro a ha
  cases hl : dictLookup A m with
  | none =>
      rw [argsAfter_of_none min_n verbose hl, hl] at ha
      exact absurd ha (by simp)
  | some a0 =>
      rw [argsAfter_lookup_of_some min_n verbose hl, Option.some.injEq] at ha
      subst ha
      rw [methodKwargs_of_some min_n verbose hl]
      exact force_force a0 min_n verbose

theorem entryStable_argsAfter {A : ArgsDict} {m : String}
    (h : entryStable min_n verbose A m) (m0 : String) :
    entryStable min_n verbose (argsAfter A m0 min_n verbose) m := by
  by_cases hm : m = m0
  · subst hm
    exact entryStable_argsAfter_self A m
  · intro a ha
    rw [argsAfter_lookup_ne A min_n verbose hm] at ha
    exact h a ha

theorem runMethods_entryStable_pres (ms : List String) (st : RunSt) (m : String)
    (h : entryStable min_n verbose st.args m) :
    entryStable min_n verbose
      (runMethods env tmp net source target weight min_n verbose ms st).args m := by
  induction ms generalizing st with
  | nil => exact h
  | cons m0 ms ih =>
      cases hf : dictLookup (methods_dict env) m0 with
      | none =>
          rw [runMethods_cons_unknown hf]
          exact h
      | some f =>
          cases hr : f tmp net source target weight (methodKwargs st.args m0 min_n verbose) with
          | error e =>
              rw [runMethods_cons_err hf hr]
              exact entryStable_argsAfter h m0
          | ok res =>
              rw [runMethods_cons_ok hf hr]
              exact ih _ (entryStable_argsAfter h m0)

theorem runMethods_entryStable_est (ms : List String) (st : RunSt) (m : String)
    (hm : m ∈ ms)
    (h : (runMethods env tmp net source target weight min_n verbose ms st).err = none) :
    entryStable min_n verbose
      (runMethods env tmp net source target weight min_n verbose ms st).args m := by
  induction ms generalizing st with
  | nil => simp at hm
  | cons m0 ms ih =>
      cases hf : dictLookup (methods_dict env) m0 with
      | none =>
          rw [runMethods_cons_unknown hf] at h
          simp at h
      | some f =>
          cases hr : f tmp net source target weight (methodKwargs st.args m0 min_n verbose) with
          | error e =>
              rw [runMethods_cons_err hf hr] at h
              simp at h
          | ok res =>
              rw [runMethods_cons_ok hf hr] at h ⊢
              by_cases hmm : m = m0
              · subst hmm
                apply runMethods_entryStable_pres
                exact entryStable_argsAfter_self st.args m
              · exact ih _ ((List.mem_cons.mp hm).resolve_left hmm) h

theorem runMethods_stableOn (ms : List String) (st : RunSt)
    (h : (runMethods env tmp net source target weight min_n verbose ms st).err = none) :
    stableOn min_n verbose ms
      (runMethods env tmp net source target weight min_n verbose ms st).args :=
  fun m hm => runMethods_entryStable_est ms st m hm h

theorem runMethods_args_fix (ms : List String) (st : RunSt)
    (h : stableOn min_n verbose ms st.args) :
    (runMethods env tmp net source target weight min_n verbose ms st).args = st.args := by
  induction ms generalizing st with
  | nil => rfl
  | cons m ms ih =>
      cases hf : dictLookup (methods_dict env) m with
      | none =>
          rw [runMethods_cons_unknown hf]
      | some f =>
          have hst : argsAfter st.args m min_n verbose = st.args := by
            cases hl : dictLookup st.args m with
            | none => exact argsAfter_of_none min_n verbose hl
            | some a => exact argsAfter_stable hl (h m (List.mem_cons_self m ms) a hl)
          cases hr : f tmp net source target weight (methodKwargs st.args m min_n verbose) with
          | error e =>
              rw [runMethods_cons_err hf hr]
              exact hst
          | ok res =>
              rw [runMethods_cons_ok hf hr]
              have h2 : stableOn min_n verbose ms
                  (argsAfter st.args m min_n verbose) := by
                rw [hst]
                exact fun m' hm' => h m' (List.mem_cons_of_mem _ hm')
              rw [ih _ h2]
              exact hst

/-! ### Loop-indistinguishability lemmas -/

theorem kwEquiv_refl (A : ArgsDict) : kwEquiv min_n verbose A A :=
  fun _ => ⟨rfl, rfl⟩

theorem kwEquiv_trans {A B C : ArgsDict} (h1 : kwEquiv min_n verbose A B)
    (h2 : kwEquiv min_n verbose B C) : kwEquiv min_n verbose A C :=
  fun m => ⟨(h1 m).1.trans (h2 m).1, (h1 m).2.trans (h2 m).2⟩

theorem methodKwargs_congr {A B : ArgsDict} (h : kwEquiv min_n verbose A B) (m : String) :
    methodKwargs A m min_n verbose = methodKwargs B m min_n verbose :=
  (h m).2

theorem kwEquiv_argsAfter_self (A : ArgsDict) (m : String) :
    kwEquiv min_n verbose (argsAfter A m min_n verbose) A := by
  intro m'
  by_cases hm : m' = m
  · subst hm
    cases hl : dictLookup A m' with
    | none =>
        rw [argsAfter_of_none min_n verbose hl, hl]
        exact ⟨rfl, rfl⟩
    | some a0 =>
        rw [argsAfter_lookup_of_some min_n verbose hl,
            methodKwargs_of_some min_n verbose hl]
        exact ⟨rfl, by simp [force_force]⟩
  · rw [argsAfter_lookup_ne A min_n verbose hm]
    exact ⟨rfl, rfl⟩

theorem kwEquiv_argsAfter_congr {A B : ArgsDict} (h : kwEquiv min_n verbose A B)
    (m : String) :
    kwEquiv min_n verbose (argsAfter A m min_n verbose) (argsAfter B m min_n verbose) := by
  intro m'
  by_cases hm : m' = m
  · subst hm
    have hs := (h m').1
    cases hA : dictLookup A m' with
    | none =>
        cases hB : dictLookup B m' with
        | none =>
            rw [argsAfter_of_none min_n verbose hA, argsAfter_of_none min_n verbose hB]
            exact h m'
        | some b0 =>
            rw [hA, hB] at hs
            simp at hs
    | some a0 =>
        cases hB : dictLookup B m' with
        | none =>
            rw [hA, hB] at hs
            simp at hs
        | some b0 =>
            have hab : force a0 min_n verbose = force b0 min_n verbose := by
              have := (h m').2
              rwa [hA, hB] at this
            rw [argsAfter_lookup_of_some min_n verbose hA,
                argsAfter_lookup_of_some min_n verbose hB,
                methodKwargs_of_some min_n verbose hA,
                methodKwargs_of_some min_n verbose hB]
            refine ⟨rfl, ?_⟩
            simp only [Option.getD_some]
            rw [force_force, force_force, hab]
  · rw [argsAfter_lookup_ne A min_n verbose hm, argsAfter_lookup_ne B min_n verbose hm]
    exact h m'

theorem runMethods_parallel (ms : List String) (st1 st2 : RunSt)
    (ha : kwEquiv min_n verbose st2.args st1.args)
    (hres : st2.results = st1.results) (herr : st2.err = st1.err)
    (hprod : st2.produced = st1.produced) :
    (runMethods env tmp net source target weight min_n verbose ms st2).results =
      (runMethods env tmp net source target weight min_n verbose ms st1).results ∧
    (runMethods env tmp net source target weight min_n verbose ms st2).err =
      (runMethods env tmp net source target weight min_n verbose ms st1).err ∧
    (runMethods env tmp net source target weight min_n verbose ms st2).produced =
      (runMethods env tmp net source target weight min_n verbose ms st1).produced ∧
    kwEquiv min_n verbose
      (runMethods env tmp net source target weight min_n verbose ms st2).args
      (runMethods env tmp net source target weight min_n verbose ms st1).args := by
  induction ms generalizing st1 st2 with
  | nil => exact ⟨hres, herr, hprod, ha⟩
  | cons m ms ih =>
      have hkw : methodKwargs st2.args m min_n verbose =
          methodKwargs st1.args m min_n verbose := methodKwargs_congr ha m
      cases hf : dictLookup (methods_dict env) m with
      | none =>
          rw [runMethods_cons_unknown hf, runMethods_cons_unknown hf]
          exact ⟨hres, by simp, hprod, ha⟩
      | some f =>
          cases hr : f tmp net source target weight (methodKwargs st1.args m min_n verbose) with
          | error e =>
              have hr2 : f tmp net source target weight
                  (methodKwargs st2.args m min_n verbose) = .error e := by
                rw [hkw]
                exact hr
              rw [runMethods_cons_err hf hr, runMethods_cons_err hf hr2]
              exact ⟨hres, by simp, hprod, kwEquiv_argsAfter_congr ha m⟩
          | ok res =>
              have hr2 : f tmp net source target weight
                  (methodKwargs st2.args m min_n verbose) = .ok res := by
                rw [hkw]
                exact hr
              rw [runMethods_cons_ok hf hr, runMethods_cons_ok hf hr2]
              exact ih _ _ (kwEquiv_argsAfter_congr ha m)
                (by simp [hres]) (by simp [herr]) (by simp [hprod])

theorem runMethods_args_kwEquiv (ms : List String) (st : RunSt) :
    kwEquiv min_n verbose
      (runMethods env tmp net source target weight min_n verbose ms st).args st.args := by
  induction ms generalizing st with
  | nil => exact kwEquiv_refl st.args
  | cons m ms ih =>
      cases hf : dictLookup (methods_dict env) m with
      | none =>
          rw [runMethods_cons_unknown hf]
          exact kwEquiv_refl st.args
      | some f =>
          cases hr : f tmp net source target weight (methodKwargs st.args m min_n verbose) with
          | error e =>
              rw [runMethods_cons_err hf hr]
              exact kwEquiv_argsAfter_self st.args m
          | ok res =>
              rw [runMethods_cons_ok hf hr]
              exact kwEquiv_trans (ih _) (kwEquiv_argsAfter_self st.args m)

end LoopLemmas

/-! ### Consensus-step and finish-step lemmas -/

theorem consensusStep_err_some {env : Env} {c : Bool} {st : RunSt} {e : Err}
    (h : st.err = some e) : consensusStep env c st = st := by
  unfold consensusStep
  rw [h]

theorem consensusStep_args (env : Env) (c : Bool) (st : RunSt) :
    (consensusStep env c st).args = st.args := by
  unfold consensusStep
  cases h : st.err with
  | some e => rfl
  | none =>
      cases c with
      | false => rfl
      | true => cases env.run_consensus st.results <;> rfl

theorem consensusStep_calls (env : Env) (c : Bool) (st : RunSt) :
    (consensusStep env c st).calls = st.calls := by
  unfold consensusStep
  cases h : st.err with
  | some e => rfl
  | none =>
      cases c with
      | false => rfl
      | true => cases env.run_consensus st.results <;> rfl

theorem consensusStep_err_none {env : Env} {c : Bool} {st : RunSt}
    (h : (consensusStep env c st).err = none) : st.err = none := by
  cases hst : st.err with
  | none => rfl
  | some e =>
      rw [consensusStep_err_some hst] at h
      rw [hst] at h
      exact absurd h (by simp)

theorem consensusStep_results_spec (env : Env) (c : Bool) (st : RunSt)
    (h : st.results = storeTables [] st.produced) :
    (consensusStep env c st).results = storeTables [] (consensusStep env c st).produced := by
  unfold consensusStep
  cases hst : st.err with
  | some e => exact h
  | none =>
      cases c with
      | false => exact h
      | true =>
          cases hc : env.run_consensus st.results with
          | error e => exact h
          | ok res =>
              show storeTables st.results res = storeTables [] (st.produced ++ res)
              rw [storeTables_append, ← h]

theorem dictLookup_storeTables_nil (ts : List Table) (k : String) :
    dictLookup (storeTables [] ts) k = lastTable ts k := by
  rw [dictLookup_storeTables]
  cases lastTable ts k <;> rfl

theorem decoupleRun_results_spec (env : Env) (mat : Mat) (net : Net)
    (source target weight : String) (methods : List String) (args : ArgsDict)
    (consensus : Bool) (min_n : Int) (verbose : Bool) :
    (decoupleRun env mat net source target weight methods args consensus min_n verbose).results =
      storeTables []
        (decoupleRun env mat net source target weight methods args consensus min_n verbose).produced := by
  unfold decoupleRun
  exact consensusStep_results_spec _ _ _ (runMethods_results_spec _ _ rfl)

theorem decoupleRun_results_nodup (env : Env) (mat : Mat) (net : Net)
    (source target weight : String) (methods : List String) (args : ArgsDict)
    (consensus : Bool) (min_n : Int) (verbose : Bool) :
    (dictKeys
      (decoupleRun env mat net source target weight methods args consensus min_n verbose).results).Nodup := by
  rw [decoupleRun_results_spec]
  exact nodup_dictKeys_storeTables (by simp [dictKeys]) _

theorem decoupleRun_args (env : Env) (mat : Mat) (net : Net)
    (source target weight : String) (methods : List String) (args : ArgsDict)
    (consensus : Bool) (min_n : Int) (verbose : Bool) :
    (decoupleRun env mat net source target weight methods args consensus min_n verbose).args =
      (runMethods env (toTmp mat) net source target weight min_n verbose methods
        (initSt args)).args :=
  consensusStep_args _ _ _

theorem decoupleRun_calls (env : Env) (mat : Mat) (net : Net)
    (source target weight : String) (methods : List String) (args : ArgsDict)
    (consensus : Bool) (min_n : Int) (verbose : Bool) :
    (decoupleRun env mat net source target weight methods args consensus min_n verbose).calls =
      (runMethods env (toTmp mat) net source target weight min_n verbose methods
        (initSt args)).calls :=
  consensusStep_calls _ _ _

theorem decoupleRun_false (env : Env) (mat : Mat) (net : Net)
    (source target weight : String) (methods : List String) (args : ArgsDict)
    (min_n : Int) (verbose : Bool) :
    decoupleRun env mat net source target weight methods args false min_n verbose =
      runMethods env (toTmp mat) net source target weight min_n verbose methods
        (initSt args) := by
  unfold decoupleRun consensusStep
  cases (runMethods env (toTmp mat) net source target weight min_n verbose methods
    (initSt args)).err <;> rfl

theorem finishStep_err {mat : Mat} {st : RunSt} {e : Err} (h : st.err = some e) :
    finishStep mat st = (.error e, st.args, mat) := by
  unfold finishStep
  rw [h]

theorem finishStep_ok_ann {st : RunSt} (a : AnnData) (h : st.err = none) :
    finishStep (.annForm a) st =
      (.ok none, st.args, .annForm { a with obsm := writeBack a.obsm st.results }) := by
  unfold finishStep
  rw [h]

theorem finishStep_ok_df {st : RunSt} (df : DataFrame) (h : st.err = none) :
    finishStep (.dfForm df) st = (.ok (some st.results), st.args, .dfForm df) := by
  unfold finishStep
  rw [h]

theorem finishStep_ok_list {st : RunSt} (g : List String) (x : List (List Int))
    (h : st.err = none) :
    finishStep (.listForm g x) st = (.ok (some st.results), st.args, .listForm g x) := by
  unfold finishStep
  rw [h]

theorem finishStep_args (mat : Mat) (st : RunSt) : (finishStep mat st).2.1 = st.args := by
  unfold finishStep
  cases h : st.err with
  | some e => rfl
  | none => cases mat <;> rfl

theorem decouple_args_eq (env : Env) (mat : Mat) (net : Net)
    (source target weight : String) (methods : List String) (args : ArgsDict)
    (consensus : Bool) (min_n : Int) (verbose : Bool) :
    (decouple env mat net source target weight methods args consensus min_n verbose).2.1 =
      (runMethods env (toTmp mat) net source target weight min_n verbose methods
        (initSt args)).args := by
  unfold decouple
  rw [finishStep_args, decoupleRun_args]

/-! ### Claims -/

/-- Claim C1: every keyword-argument mapping the dispatcher passes to a
scoring function has min_n equal to the dispatcher's min_n parameter and
verbose equal to its verbose parameter, whatever the caller put in args. -/
theorem C1_forced_overrides (env : Env) (mat : Mat) (net : Net)
    (source target weight : String) (methods : List String) (args : ArgsDict)
    (consensus : Bool) (min_n : Int) (verbose : Bool) (m : String) (a : Kwargs)
    (h : (m, a) ∈ (decoupleRun env mat net source target weight methods args consensus
      min_n verbose).calls) :
    dictLookup a "min_n" = some (.int min_n) ∧
    dictLookup a "verbose" = some (.bool verbose) := by
  rw [decoupleRun_calls] at h
  exact runMethods_calls_forced methods (initSt args) callsForced_nil (m, a) h

/-- Witness for C1: the concrete ulm call, whose caller-supplied min_n of
99 was overwritten with the dispatcher's 5. -/
theorem C1_forced_overrides_witness :
    ("ulm", ulmForced) ∈ (decoupleRun envT matT netT "source" "target" "weight"
      ["ulm"] argsT false 5 true).calls ∧
    dictLookup ulmForced "min_n" = some (.int 5) ∧
    dictLookup ulmForced "verbose" = some (.bool true) :=
  ⟨by decide,
   C1_forced_overrides envT matT netT "source" "target" "weight" ["ulm"] argsT false 5 true
     "ulm" ulmForced (by decide)⟩

/-- Claim C7: the registry maps exactly the five names wmean, wsum, ulm,
mlm, ora (in this order) to the five scoring callables, and a decouple run
dispatches only through this mapping together with the consensus
aggregator: environments agreeing on both are indistinguishable for every
call. -/
theorem C7_registry_fixed (env : Env) :
    dictKeys (methods_dict env) = ["wmean", "wsum", "ulm", "mlm", "ora"] ∧
    (∀ (env' : Env) (mat : Mat) (net : Net) (source target weight : String)
      (methods : List String) (args : ArgsDict) (consensus : Bool)
      (min_n : Int) (verbose : Bool),
      methods_dict env = methods_dict env' →
      env.run_consensus = env'.run_consensus →
      decoupleRun env mat net source target weight methods args consensus min_n verbose =
        decoupleRun env' mat net source target weight methods args consensus min_n verbose) := by
  refine ⟨rfl, ?_⟩
  intro env' mat net source target weight methods args consensus min_n verbose hm hc
  have h1 : env = env' := by
    cases env with
    | mk w1 w2 w3 w4 w5 w6 =>
        cases env' with
        | mk v1 v2 v3 v4 v5 v6 =>
            simp only [methods_dict, List.cons.injEq, Prod.mk.injEq, true_and,
              and_true] at hm
            simp only at hc
            obtain ⟨e1, e2, e3, e4, e5⟩ := hm
            rw [e1, e2, e3, e4, e5, hc]
  rw [h1]

/-- Witness for C7 at the concrete environment. -/
theorem C7_registry_fixed_witness :
    dictKeys (methods_dict envT) = ["wmean", "wsum", "ulm", "mlm", "ora"] ∧
    decoupleRun envT matT netT "source" "target" "weight" ["ulm"] [] true 5 true =
      decoupleRun envT matT netT "source" "target" "weight" ["ulm"] [] true 5 true :=
  ⟨(C7_registry_fixed envT).1,
   (C7_registry_fixed envT).2 envT matT netT "source" "target" "weight" ["ulm"] [] true 5 true
     rfl rfl⟩

/-- Claim C9: when the call raises — unknown method, scoring failure or
consensus failure — the mat object is returned unchanged: the obsm
write-back happens only after every step has completed. -/
theorem C9_no_write_on_failure (env : Env) (mat : Mat) (net : Net)
    (source target weight : String) (methods : List String) (args : ArgsDict)
    (consensus : Bool) (min_n : Int) (verbose : Bool) (e : Err)
    (h : (decouple env mat net source target weight methods args consensus
      min_n verbose).1 = .error e) :
    (decouple env mat net source target weight methods args consensus min_n verbose).2.2 =
      mat := by
  unfold decouple at h ⊢
  cases hst : (decoupleRun env mat net source target weight methods args consensus
    min_n verbose).err with
  | some e2 => rw [finishStep_err hst]
  | none =>
      cases mat with
      | annForm a =>
          rw [finishStep_ok_ann a hst] at h
          exact absurd h (by simp)
      | dfForm df => rw [finishStep_ok_df df hst]
      | listForm g x => rw [finishStep_ok_list g x hst]

/-- Witness for C9: a failing concrete call leaves mat untouched. -/
theorem C9_no_write_on_failure_witness :
    (decouple envT matAnnT netT "source" "target" "weight" ["bad_method"] [] true 5 true).1 =
      .error (.valueError (unknownMsg "bad_method")) ∧
    (decouple envT matAnnT netT "source" "target" "weight" ["bad_method"] [] true 5 true).2.2 =
      matAnnT :=
  ⟨by rfl,
   C9_no_write_on_failure envT matAnnT netT "source" "target" "weight" ["bad_method"] [] true
     5 true (.valueError (unknownMsg "bad_method")) (by rfl)⟩

/-- Claim C10: the dispatcher never inserts a key into the caller's args:
the final args state has exactly the caller's keys, and any method name
unmapped before the call is still unmapped after it (its fresh override
dict stays private). -/
theorem C10_args_not_extended (env : Env) (mat : Mat) (net : Net)
    (source target weight : String) (methods : List String) (args : ArgsDict)
    (consensus : Bool) (min_n : Int) (verbose : Bool) :
    dictKeys (decouple env mat net source target weight methods args consensus
      min_n verbose).2.1 = dictKeys args ∧
    (∀ m, dictLookup args m = none →
      dictLookup (decouple env mat net source target weight methods args consensus
        min_n verbose).2.1 m = none) := by
  have hkeys : dictKeys (decouple env mat net source target weight methods args consensus
      min_n verbose).2.1 = dictKeys args := by
    rw [decouple_args_eq]
    exact runMethods_args_keys methods (initSt args)
  refine ⟨hkeys, ?_⟩
  intro m hm
  rw [dictLookup_none_iff_not_mem] at hm ⊢
  rw [hkeys]
  exact hm

/-- Witness for C10: wmean is absent from the concrete args before and
after the call. -/
theorem C10_args_not_extended_witness :
    dictLookup argsT "wmean" = none ∧
    dictLookup (decouple envT matT netT "source" "target" "weight" ["wmean", "ulm"] argsT
      true 5 true).2.1 "wmean" = none :=
  ⟨by rfl,
   (C10_args_not_extended envT matT netT "source" "target" "weight" ["wmean", "ulm"] argsT
     true 5 true).2 "wmean" (by rfl)⟩

/-- Counterexample for C2 as stated: with a wmean scoring function that
raises, a call whose methods list contains the unregistered name
bad_method raises the scoring failure, not the dispatcher's ValueError. -/
theorem C2_counterexample :
    "bad_method" ∈ ["wmean", "bad_method"] ∧
    dictLookup (methods_dict envBad) "bad_method" = none ∧
    (decouple envBad matT netT "source" "target" "weight" ["wmean", "bad_method"] [] true
      5 true).1 = .error (.methodErr "boom") ∧
    isValueErr (.methodErr "boom") = false :=
  ⟨by decide, by rfl, by rfl, rfl⟩

/-- Claim C2 (amended): when execution reaches the first unregistered
method name — every selected method before it succeeds — the call raises
the dispatcher's ValueError, whose message contains the offending name and
the pointer to show_methods(), and no result mapping is returned. -/
theorem C2_unknown_method_raises (env : Env) (mat : Mat) (net : Net)
    (source target weight : String) (pre : List String) (bad : String)
    (post : List String) (args : ArgsDict) (consensus : Bool)
    (min_n : Int) (verbose : Bool)
    (hbad : dictLookup (methods_dict env) bad = none)
    (hok : (runMethods env (toTmp mat) net source target weight min_n verbose pre
      (initSt args)).err = none) :
    (decouple env mat net source target weight (pre ++ bad :: post) args consensus
      min_n verbose).1 = .error (.valueError (unknownMsg bad)) ∧
    (∃ p q : String, unknownMsg bad = p ++ bad ++ q) ∧
    (∃ p q : String, unknownMsg bad = p ++ "show_methods()" ++ q) := by
  refine ⟨?_, ?_, ?_⟩
  · unfold decouple decoupleRun
    rw [runMethods_append pre (bad :: post) (initSt args) hok,
        runMethods_cons_unknown hbad, consensusStep_err_some rfl, finishStep_err rfl]
  · exact ⟨"Method ",
      " not available, please run show_methods() to see the list of available methods.",
      rfl⟩
  · refine ⟨"Method " ++ bad ++ " not available, please run ",
      " to see the list of available methods.", ?_⟩
    apply String.ext
    simp only [unknownMsg, String.data_append, List.append_assoc]
    rfl

/-- Witness for the amended C2: wmean succeeds, then bad_method aborts the
call with the ValueError. -/
theorem C2_unknown_method_raises_witness :
    (decouple envT matT netT "source" "target" "weight" (["wmean"] ++ "bad_method" :: [])
      [] true 5 true).1 = .error (.valueError (unknownMsg "bad_method")) ∧
    (∃ p q : String, unknownMsg "bad_method" = p ++ "bad_method" ++ q) ∧
    (∃ p q : String, unknownMsg "bad_method" = p ++ "show_methods()" ++ q) :=
  C2_unknown_method_raises envT matT netT "source" "target" "weight" ["wmean"] "bad_method"
    [] [] true 5 true (by rfl) (by rfl)

/-- Claim C6: when the loop hits the first unregistered name after a
prefix of successfully run registry methods, the call aborts with the
ValueError and no result mapping; the loop invoked exactly the prefix
methods (in order, none after the failing position), and the in-place
mutations of the caller's args performed for the prefix remain in the
returned args state. -/
theorem C6_abort_without_rollback (env : Env) (mat : Mat) (net : Net)
    (source target weight : String) (pre : List String) (bad : String)
    (post : List String) (args : ArgsDict) (consensus : Bool)
    (min_n : Int) (verbose : Bool)
    (hbad : dictLookup (methods_dict env) bad = none)
    (hok : (runMethods env (toTmp mat) net source target weight min_n verbose pre
      (initSt args)).err = none) :
    decouple env mat net source target weight (pre ++ bad :: post) args consensus
      min_n verbose =
      (.error (.valueError (unknownMsg bad)),
       (runMethods env (toTmp mat) net source target weight min_n verbose pre
         (initSt args)).args,
       mat) ∧
    (decoupleRun env mat net source target weight (pre ++ bad :: post) args consensus
      min_n verbose).calls =
      (runMethods env (toTmp mat) net source target weight min_n verbose pre
        (initSt args)).calls ∧
    ((runMethods env (toTmp mat) net source target weight min_n verbose pre
      (initSt args)).calls).map Prod.fst = pre := by
  refine ⟨?_, ?_, ?_⟩
  · unfold decouple decoupleRun
    rw [runMethods_append pre (bad :: post) (initSt args) hok,
        runMethods_cons_unknown hbad, consensusStep_err_some rfl, finishStep_err rfl]
  · rw [decoupleRun_calls,
        runMethods_append pre (bad :: post) (initSt args) hok,
        runMethods_cons_unknown hbad]
  · simpa using runMethods_calls_names pre (initSt args) hok

/-- Witness for C6 at a concrete call: wmean runs (mutating nothing in the
empty prefix beyond its trace entry), ulm after the bad name never runs. -/
theorem C6_abort_without_rollback_witness :
    decouple envT matT netT "source" "target" "weight" (["wmean"] ++ "bad_method" :: ["ulm"])
      argsT true 5 true =
      (.error (.valueError (unknownMsg "bad_method")),
       (runMethods envT (toTmp matT) netT "source" "target" "weight" 5 true ["wmean"]
         (initSt argsT)).args,
       matT) ∧
    (decoupleRun envT matT netT "source" "target" "weight"
      (["wmean"] ++ "bad_method" :: ["ulm"]) argsT true 5 true).calls =
      (runMethods envT (toTmp matT) netT "source" "target" "weight" 5 true ["wmean"]
        (initSt argsT)).calls ∧
    ((runMethods envT (toTmp matT) netT "source" "target" "weight" 5 true ["wmean"]
      (initSt argsT)).calls).map Prod.fst = ["wmean"] :=
  C6_abort_without_rollback envT matT netT "source" "target" "weight" ["wmean"] "bad_method"
    ["ulm"] argsT true 5 true (by rfl) (by rfl)

/-- Claim C3: for a completing run, the final result-set mapping has
exactly the names of the tables produced by the selected methods in list
order (plus the consensus tables when consensus is set, recorded last in
the production trace), and on a name collision the table kept is the one
produced later. -/
theorem C3_result_keys (env : Env) (mat : Mat) (net : Net)
    (source target weight : String) (methods : List String) (args : ArgsDict)
    (consensus : Bool) (min_n : Int) (verbose : Bool)
    (h : (decoupleRun env mat net source target weight methods args consensus
      min_n verbose).err = none) :
    (∀ k, k ∈ dictKeys (decoupleRun env mat net source target weight methods args consensus
        min_n verbose).results ↔
      k ∈ ((decoupleRun env mat net source target weight methods args consensus
        min_n verbose).produced).map Table.name) ∧
    (∀ k, dictLookup (decoupleRun env mat net source target weight methods args consensus
        min_n verbose).results k =
      lastTable (decoupleRun env mat net source target weight methods args consensus
        min_n verbose).produced k) := by
  have hspec := decoupleRun_results_spec env mat net source target weight methods args
    consensus min_n verbose
  constructor
  · intro k
    rw [← dictLookup_isSome_iff_mem, hspec, dictLookup_storeTables_nil, lastTable_isSome_iff]
  · intro k
    rw [hspec, dictLookup_storeTables_nil]

/-- Witness for C3 at a concrete run with consensus. -/
theorem C3_result_keys_witness :
    ("consensus_estimate" ∈ dictKeys (decoupleRun envT matT netT "source" "target" "weight"
        ["wmean", "ulm"] [] true 5 true).results ↔
      "consensus_estimate" ∈ ((decoupleRun envT matT netT "source" "target" "weight"
        ["wmean", "ulm"] [] true 5 true).produced).map Table.name) ∧
    dictLookup (decoupleRun envT matT netT "source" "target" "weight"
        ["wmean", "ulm"] [] true 5 true).results "consensus_estimate" =
      lastTable (decoupleRun envT matT netT "source" "target" "weight"
        ["wmean", "ulm"] [] true 5 true).produced "consensus_estimate" :=
  ⟨(C3_result_keys envT matT netT "source" "target" "weight" ["wmean", "ulm"] [] true 5 true
      (by rfl)).1 "consensus_estimate",
   (C3_result_keys envT matT netT "source" "target" "weight" ["wmean", "ulm"] [] true 5 true
      (by rfl)).2 "consensus_estimate"⟩

/-- Claim C4: a completing call on an AnnData input returns None and every
entry of the final result-set mapping is written into the obsm slot under
its own name; on a DataFrame or list input the full result-set mapping is
returned and mat is untouched. -/
theorem C4_return_and_writeback (env : Env) (mat : Mat) (net : Net)
    (source target weight : String) (methods : List String) (args : ArgsDict)
    (consensus : Bool) (min_n : Int) (verbose : Bool)
    (h : (decoupleRun env mat net source target weight methods args consensus
      min_n verbose).err = none) :
    (∀ a, mat = .annForm a →
      decouple env mat net source target weight methods args consensus min_n verbose =
        (.ok none,
         (decoupleRun env mat net source target weight methods args consensus
           min_n verbose).args,
         .annForm { a with obsm := writeBack a.obsm (decoupleRun env mat net source target weight methods args consensus min_n verbose).results }) ∧
      (∀ k tbl, dictLookup (decoupleRun env mat net source target weight methods args
          consensus min_n verbose).results k = some tbl →
        dictLookup (writeBack a.obsm (decoupleRun env mat net source target weight methods
          args consensus min_n verbose).results) k = some tbl)) ∧
    (isAnn mat = false →
      decouple env mat net source target weight methods args consensus min_n verbose =
        (.ok (some (decoupleRun env mat net source target weight methods args consensus
          min_n verbose).results),
         (decoupleRun env mat net source target weight methods args consensus
           min_n verbose).args,
         mat)) := by
  constructor
  · intro a ha
    subst ha
    constructor
    · unfold decouple
      rw [finishStep_ok_ann a h]
    · intro k tbl hk
      exact dictLookup_writeBack_of_lookup a.obsm
        (decoupleRun_results_nodup env (.annForm a) net source target weight methods args
          consensus min_n verbose) hk
  · intro hann
    unfold decouple
    cases mat with
    | annForm a => simp [isAnn] at hann
    | dfForm df => rw [finishStep_ok_df df h]
    | listForm g x => rw [finishStep_ok_list g x h]

/-- Witness for C4 on a concrete AnnData call. -/
theorem C4_return_and_writeback_witness :
    decouple envT matAnnT netT "source" "target" "weight" ["ulm"] [] false 5 true =
      (.ok none,
       (decoupleRun envT matAnnT netT "source" "target" "weight" ["ulm"] [] false 5
         true).args,
       .annForm { annT with obsm := writeBack annT.obsm (decoupleRun envT matAnnT netT "source" "target" "weight" ["ulm"] [] false 5 true).results }) :=
  ((C4_return_and_writeback envT matAnnT netT "source" "target" "weight" ["ulm"] [] false 5
    true (by rfl)).1 annT rfl).1

/-- Claim C5: for a completing call and a selected method name the caller
did map in args, the caller's own override dict ends up mutated in place:
in the final args state the method's entry holds min_n and verbose equal
to the dispatcher's parameters, whatever the caller had stored. -/
theorem C5_args_overwritten (env : Env) (mat : Mat) (net : Net)
    (source target weight : String) (methods : List String) (args : ArgsDict)
    (consensus : Bool) (min_n : Int) (verbose : Bool) (m : String) (a0 : Kwargs)
    (h : (decoupleRun env mat net source target weight methods args consensus
      min_n verbose).err = none)
    (hm : m ∈ methods) (ha : dictLookup args m = some a0) :
    ∃ a, dictLookup (decouple env mat net source target weight methods args consensus
        min_n verbose).2.1 m = some a ∧
      dictLookup a "min_n" = some (.int min_n) ∧
      dictLookup a "verbose" = some (.bool verbose) := by
  have hloop : (runMethods env (toTmp mat) net source target weight min_n verbose methods
      (initSt args)).err = none := by
    unfold decoupleRun at h
    exact consensusStep_err_none h
  have hstab := runMethods_entryStable_est methods (initSt args) m hm hloop
  have hmem : m ∈ dictKeys (runMethods env (toTmp mat) net source target weight min_n
      verbose methods (initSt args)).args := by
    rw [runMethods_args_keys]
    show m ∈ dictKeys args
    rw [← dictLookup_isSome_iff_mem, ha]
    rfl
  obtain ⟨a, haa⟩ :=
    Option.isSome_iff_exists.mp ((dictLookup_isSome_iff_mem _ _).mpr hmem)
  have hfix := hstab a haa
  refine ⟨a, ?_, ?_, ?_⟩
  · rw [decouple_args_eq]
    exact haa
  · rw [← hfix]
    exact force_lookup_min a min_n verbose
  · rw [← hfix]
    exact force_lookup_verbose a min_n verbose

/-- Witness for C5 on the concrete ulm call with a caller-supplied min_n
of 99 that ends up overwritten. -/
theorem C5_args_overwritten_witness :
    ∃ a, dictLookup (decouple envT matT netT "source" "target" "weight" ["ulm"] argsT true
        5 true).2.1 "ulm" = some a ∧
      dictLookup a "min_n" = some (.int 5) ∧
      dictLookup a "verbose" = some (.bool true) :=
  C5_args_overwritten envT matT netT "source" "target" "weight" ["ulm"] argsT true 5 true
    "ulm" [("min_n", .int 99), ("extra", .str "x")] (by rfl) (by decide) (by rfl)

theorem finishStep_toTmp (mat : Mat) (st : RunSt) :
    toTmp (finishStep mat st).2.2 = toTmp mat := by
  unfold finishStep
  cases h : st.err with
  | some e => rfl
  | none => cases mat <;> rfl

theorem finishStep_twice (mat : Mat) (st1 st2 : RunSt)
    (he1 : st1.err = none) (he : st2.err = st1.err) (hr : st2.results = st1.results)
    (ha : st2.args = st1.args) (hnd : (dictKeys st1.results).Nodup) :
    finishStep (finishStep mat st1).2.2 st2 = finishStep mat st1 := by
  cases mat with
  | dfForm df =>
      rw [finishStep_ok_df df he1]
      show finishStep (Mat.dfForm df) st2 = _
      rw [finishStep_ok_df df (he.trans he1), hr, ha]
  | listForm g x =>
      rw [finishStep_ok_list g x he1]
      show finishStep (Mat.listForm g x) st2 = _
      rw [finishStep_ok_list g x (he.trans he1), hr, ha]
  | annForm a =>
      rw [finishStep_ok_ann a he1]
      show finishStep (Mat.annForm { a with obsm := writeBack a.obsm st1.results }) st2 = _
      rw [finishStep_ok_ann _ (he.trans he1), hr, ha]
      show (Except.ok none, st1.args,
        Mat.annForm { a with obsm := writeBack (writeBack a.obsm st1.results) st1.results }) =
        (Except.ok none, st1.args, Mat.annForm { a with obsm := writeBack a.obsm st1.results })
      rw [writeBack_writeBack hnd a.obsm]

/-- Running decouple a second time, on the args and mat states the first
(successful, consensus-free) call left behind, reproduces the first call's
outcome exactly: the forced overwrite is idempotent on args, and the obsm
write-back rewrites the same tables. -/
theorem decouple_idem (env : Env) (mat : Mat) (net : Net) (source target weight : String)
    (methods : List String) (args : ArgsDict) (min_n : Int) (verbose : Bool)
    (hok : (runMethods env (toTmp mat) net source target weight min_n verbose methods
      (initSt args)).err = none) :
    decouple env
      (decouple env mat net source target weight methods args false min_n verbose).2.2 net
      source target weight methods
      (decouple env mat net source target weight methods args false min_n verbose).2.1
      false min_n verbose =
    decouple env mat net source target weight methods args false min_n verbose := by
  have hD1 : decouple env mat net source target weight methods args false min_n verbose =
      finishStep mat (runMethods env (toTmp mat) net source target weight min_n verbose
        methods (initSt args)) := by
    unfold decouple
    rw [decoupleRun_false]
  rw [hD1]
  unfold decouple
  rw [decoupleRun_false, finishStep_toTmp, finishStep_args]
  have hpar := @runMethods_parallel env (toTmp mat) net source target weight min_n verbose
    methods
    (initSt args)
    (initSt (runMethods env (toTmp mat) net source target weight min_n verbose methods
      (initSt args)).args)
    (runMethods_args_kwEquiv methods (initSt args)) rfl rfl rfl
  obtain ⟨hres2, herr2, hprod2, hkw2⟩ := hpar
  have hargs2 : (runMethods env (toTmp mat) net source target weight min_n verbose methods
      (initSt (runMethods env (toTmp mat) net source target weight min_n verbose methods
        (initSt args)).args)).args =
      (runMethods env (toTmp mat) net source target weight min_n verbose methods
        (initSt args)).args :=
    runMethods_args_fix methods _ (runMethods_stableOn methods (initSt args) hok)
  have hnd : (dictKeys (runMethods env (toTmp mat) net source target weight min_n verbose
      methods (initSt args)).results).Nodup := by
    rw [runMethods_results_spec methods (initSt args) rfl]
    exact nodup_dictKeys_storeTables (by simp [dictKeys]) _
  exact finishStep_twice mat _ _ hok (herr2.trans (by rw [hok])) hres2 hargs2 hnd

/-- Claim C8: the dispatcher adds no nondeterminism: with deterministic
scoring functions (fixed environment) and consensus off, running decouple
again with the same inputs — including the args and mat objects as the
first call left them — yields the identical outcome triple. -/
theorem C8_second_run_identical (env : Env) (mat : Mat) (net : Net)
    (source target weight : String) (methods : List String) (args : ArgsDict)
    (min_n : Int) (verbose : Bool) (r1 : Except Err (Option ResultsDict))
    (a1 : ArgsDict) (m1 : Mat)
    (hok : (decoupleRun env mat net source target weight methods args false min_n
      verbose).err = none)
    (h : decouple env mat net source target weight methods args false min_n verbose =
      (r1, a1, m1)) :
    decouple env m1 net source target weight methods a1 false min_n verbose =
      (r1, a1, m1) := by
  have hok2 : (runMethods env (toTmp mat) net source target weight min_n verbose methods
      (initSt args)).err = none := by
    rw [decoupleRun_false] at hok
    exact hok
  have hidem := decouple_idem env mat net source target weight methods args min_n verbose
    hok2
  rw [h] at hidem
  exact hidem

/-- Witness for C8: running the concrete ulm call a second time on its own
output states reproduces the same triple. -/
theorem C8_second_run_identical_witness :
    decouple envT matT netT "source" "target" "weight" ["ulm"] a1c false 5 true =
      (r1c, a1c, matT) :=
  C8_second_run_identical envT matT netT "source" "target" "weight" ["ulm"] argsT 5 true
    r1c a1c matT (by rfl) (by rfl)

end Decoupler
